import Mathlib

/-!
Verification of the incremental markdown streaming renderer of the
Libre-Assistant repository (the Vue component whose script defines
splitIntoBlocks, renderBlockHtml, flushToStatic, setStreamingHtml,
finalizeAll, processAppendedSuffix, handleNonPrefixReplace,
processContentNow and the prop watcher).

The JavaScript string operations used by the component are modelled
over the character list of a Lean String:
  - line.trim()            -> jsTrim (ASCII whitespace, the only
                              whitespace occurring in the modelled inputs)
  - s.split('\n')          -> splitLines
  - s.startsWith(p)        -> strStartsWith
  - s.slice(n) / substring -> strDrop / strTake
  - s.length               -> strLength
  - array.join('\n')       -> nlJoin
The external markdown engine md.render is an arbitrary function
parameter render, and the number of top-level DOM nodes an HTML string
materializes to is an arbitrary function parameter nodes (it is only
ever used for the write-only staticBlockCount counter).
-/

namespace LibreAssistant

/-- ASCII whitespace characters, as matched by the JS trim and the
regex whitespace class on the text handled by the component. -/
def isWS (c : Char) : Bool :=
  c = ' ' || c = '\t' || c = '\n' || c = '\r' || c = '\x0b' || c = '\x0c'

/-- Drop leading and trailing whitespace from a character list. -/
def trimChars (cs : List Char) : List Char :=
  ((cs.dropWhile isWS).reverse.dropWhile isWS).reverse

/-- Model of the JS String.prototype.trim. -/
def jsTrim (s : String) : String := String.mk (trimChars s.data)

/-- Model of the JS s.startsWith(pre). -/
def strStartsWith (s pre : String) : Bool := pre.data.isPrefixOf s.data

/-- Model of the JS s.length (the component only handles text where
code units and characters coincide). -/
def strLength (s : String) : Nat := s.data.length

/-- Model of the JS s.substring(0, n). -/
def strTake (s : String) (n : Nat) : String := String.mk (s.data.take n)

/-- Model of the JS s.slice(n). -/
def strDrop (s : String) (n : Nat) : String := String.mk (s.data.drop n)

/-- Model of the JS array.join('\n') used on the accumulated block lines. -/
def nlJoin : List String → String
  | [] => ""
  | [l] => l
  | l :: ls => l ++ "\n" ++ nlJoin ls

/-- Character-level model of the JS s.split('\n'). -/
def splitLinesChars : List Char → List (List Char)
  | [] => [[]]
  | c :: cs =>
    match splitLinesChars cs with
    | [] => [[c]]
    | l :: ls => if c = '\n' then [] :: l :: ls else (c :: l) :: ls

/-- Model of the JS markdown.split('\n'). -/
def splitLines (s : String) : List String :=
  (splitLinesChars s.data).map String.mk

/-- The regex match of a fence delimiter at the start of the trimmed
line: returns the delimiter that matched, as in trimmed.match of the
pattern (three backticks or three tildes at the start). -/
def fenceMatch (trimmed : String) : Option String :=
  if strStartsWith trimmed "```" then some "```"
  else if strStartsWith trimmed "~~~" then some "~~~"
  else none

/-- One to six hash characters followed by a whitespace character, at
the start of the raw line (the heading alternative of the block-starter
regex). -/
def headingStart (cs : List Char) : Bool :=
  let m := (cs.takeWhile (fun c => c = '#')).length
  decide (1 ≤ m) && decide (m ≤ 6) &&
    (match cs.drop m with
     | d :: _ => isWS d
     | [] => false)

/-- A list bullet followed by whitespace, at the start of the raw line. -/
def listStart (cs : List Char) : Bool :=
  match cs with
  | c :: d :: _ => (c = '-' || c = '*' || c = '+') && isWS d
  | _ => false

/-- One or more digits, a dot and a whitespace character, at the start
of the raw line (the ordered-list alternative of the regex). -/
def orderedStart (cs : List Char) : Bool :=
  let m := (cs.takeWhile Char.isDigit).length
  decide (1 ≤ m) &&
    (match cs.drop m with
     | '.' :: d :: _ => isWS d
     | _ => false)

/-- The blockStarters regex of the source: heading, blockquote, list
item, ordered list item, fence opener or table row, tested against the
raw (untrimmed) next non-blank line. -/
def isBlockStarter (line : String) : Bool :=
  headingStart line.data || strStartsWith line ">" || listStart line.data ||
  orderedStart line.data || strStartsWith line "```" || strStartsWith line "~~~" ||
  strStartsWith line "|"

/-- The line-scanning loop of splitIntoBlocks.  The first argument is
the list of lines still to process (the source indexes the full array
with i; the lookahead for the next non-blank line scans the lines after
i, which is exactly the remainder list here).  blocks accumulates the
finished block strings, currentBlock the lines of the block being
accumulated, and inCodeFence / fenceChar are the fence state. -/
def splitLoop : List String → List String → List String → Bool → String → List String
  | [], blocks, currentBlock, _, _ =>
    if currentBlock.length > 0 then blocks ++ [nlJoin currentBlock] else blocks
  | line :: rest, blocks, currentBlock, inCodeFence, fenceChar =>
    let trimmed := jsTrim line
    match fenceMatch trimmed with
    | some delim =>
      if !inCodeFence then
        -- Starting a code fence: finalize any current block first
        let blocks := if currentBlock.length > 0 then blocks ++ [nlJoin currentBlock] else blocks
        splitLoop rest blocks [line] true delim
      else if strStartsWith trimmed fenceChar then
        -- Ending a code fence
        splitLoop rest (blocks ++ [nlJoin (currentBlock ++ [line])]) [] false ""
      else
        splitLoop rest blocks (currentBlock ++ [line]) inCodeFence fenceChar
    | none =>
      if inCodeFence then
        splitLoop rest blocks (currentBlock ++ [line]) inCodeFence fenceChar
      else if jsTrim line = "" ∧ currentBlock.length > 0 then
        -- Blank line outside a code fence: potential block boundary
        let nextLine := rest.find? (fun l => jsTrim l != "")
        let boundary := match nextLine with
          | none => true
          | some nl => isBlockStarter nl
        if boundary then
          splitLoop rest (blocks ++ [nlJoin currentBlock]) [] inCodeFence fenceChar
        else
          splitLoop rest blocks (currentBlock ++ [line]) inCodeFence fenceChar
      else
        splitLoop rest blocks (currentBlock ++ [line]) inCodeFence fenceChar

/-- The splitIntoBlocks function of the source: smart block splitting
that respects fenced code blocks. -/
def splitIntoBlocks (markdown : String) : List String :=
  if markdown = "" then [""]
  else
    let blocks := splitLoop (splitLines markdown) [] [] false ""
    if blocks.length > 0 then blocks else [""]

/-- The renderBlockHtml function of the source: render a block of
markdown to HTML, returning the empty string for empty or
whitespace-only input without consulting the markdown engine. -/
def renderBlockHtml (render : String → String) (mdText : String) : String :=
  if mdText = "" ∨ strLength (jsTrim mdText) = 0 then "" else render mdText

/-- The accumulation loop over newly complete blocks that both
processAppendedSuffix and handleNonPrefixReplace run: render each
block and append the HTML when it is non-empty (truthy). -/
def accumulateHtml (render : String → String) (blocks : List String) : String :=
  blocks.foldl
    (fun accumulatedHtml block =>
      let html := renderBlockHtml render block
      if html ≠ "" then accumulatedHtml ++ html else accumulatedHtml)
    ""

/-- The events the component can emit. -/
inductive Ev where
  | start
  | complete
deriving DecidableEq, Repr

/-- The mutable state of the streaming component.  staticHtml is the
innerHTML of the committed (static) container and streamingDom the
materialized content of the streaming container; both containers are
mounted for the whole life of the modelled component.  The remaining
fields are the script-level variables of the source with the same
names, plus the streamingHtml reactive ref. -/
structure CompState where
  staticHtml : String
  staticBlockCount : Nat
  tailMarkdown : String
  prevContent : String
  lastRenderKey : String
  hasEmittedStart : Bool
  lastCompleteBlockCount : Nat
  streamingHtml : String
  streamingDom : String
deriving DecidableEq, Repr

/-- The component state right after setup runs. -/
def initState : CompState :=
  { staticHtml := "", staticBlockCount := 0, tailMarkdown := "",
    prevContent := "", lastRenderKey := "", hasEmittedStart := false,
    lastCompleteBlockCount := 0, streamingHtml := "", streamingDom := "" }

/-- The setStreamingHtml function: update the streaming reactive HTML,
avoiding redundant writes.  When the ref actually changes the reactive
layer re-materializes the streaming container from the new HTML (per
the design, a scheduled flush only runs after this materialization);
when the write is skipped the container is left untouched. -/
def setStreamingHtml (st : CompState) (html : String) : CompState :=
  if st.lastRenderKey = html then st
  else { st with lastRenderKey := html, streamingHtml := html, streamingDom := html }

/-- The flushToStatic function at the state level: move all children
of the streaming container to the end of the static container,
counting each moved node (applyMarginClasses only toggles CSS classes
and is not modelled). -/
def flushToStatic (nodes : String → Nat) (st : CompState) : CompState :=
  { st with staticHtml := st.staticHtml ++ st.streamingDom,
            staticBlockCount := st.staticBlockCount + nodes st.streamingDom,
            streamingDom := "" }

/-- The finalizeAll function: clear the static container, render the
full content through the streaming container, flush it to static and
reset all transient state (the trailing highlight pass only decorates
committed code blocks and is not modelled). -/
def finalizeAll (render : String → String) (nodes : String → Nat)
    (st : CompState) (fullText : String) : CompState :=
  let st1 := { st with staticHtml := "", staticBlockCount := 0 }
  let fullHtml := render fullText
  let st2 := setStreamingHtml st1 fullHtml
  let st3 := flushToStatic nodes st2
  { st3 with tailMarkdown := "", staticBlockCount := 0, lastCompleteBlockCount := 0,
             lastRenderKey := "", prevContent := fullText,
             streamingHtml := "", streamingDom := "" }

/-- The processAppendedSuffix function: process an appended suffix
incrementally, re-rendering only the streaming block and flushing
newly complete blocks. -/
def processAppendedSuffix (render : String → String) (nodes : String → Nat)
    (st : CompState) (suffix : String) : CompState :=
  if suffix = "" then
    let blocks := splitIntoBlocks st.tailMarkdown
    let streamingBlock := if blocks.length > 0 then blocks.getLastD "" else ""
    setStreamingHtml st (renderBlockHtml render streamingBlock)
  else
    let tailMarkdown := if st.tailMarkdown ≠ "" then st.tailMarkdown ++ suffix else suffix
    let st1 := { st with tailMarkdown := tailMarkdown }
    let blocks := splitIntoBlocks tailMarkdown
    let completeBlocks := if blocks.length > 1 then blocks.dropLast else []
    let streamingBlock := if blocks.length > 0 then blocks.getLastD "" else ""
    let st2 :=
      if completeBlocks.length > st1.lastCompleteBlockCount then
        let newBlocks := completeBlocks.drop st1.lastCompleteBlockCount
        let accumulatedHtml := accumulateHtml render newBlocks
        let st' :=
          if accumulatedHtml ≠ "" then
            flushToStatic nodes (setStreamingHtml st1 accumulatedHtml)
          else st1
        { st' with lastCompleteBlockCount := completeBlocks.length }
      else st1
    setStreamingHtml st2 (renderBlockHtml render streamingBlock)

/-- The handleNonPrefixReplace function: handle rewind/replace content
changes by a conservative reset, or finalize when the update is
complete. -/
def handleNonPrefixReplace (render : String → String) (nodes : String → Nat)
    (st : CompState) (newContent : String) (isComplete : Bool) : CompState :=
  if isComplete then
    finalizeAll render nodes st newContent
  else
    let st1 := { st with staticHtml := "", staticBlockCount := 0,
                         lastCompleteBlockCount := 0, tailMarkdown := "",
                         lastRenderKey := "", prevContent := "" }
    let blocks := splitIntoBlocks newContent
    let completeBlocks := if blocks.length > 1 then blocks.dropLast else []
    let accumulatedHtml := accumulateHtml render completeBlocks
    let st2 :=
      if accumulatedHtml ≠ "" then
        flushToStatic nodes (setStreamingHtml st1 accumulatedHtml)
      else st1
    let tailMarkdown := if blocks.length > 0 then blocks.getLastD "" else ""
    let st3 := { st2 with lastCompleteBlockCount := completeBlocks.length,
                          tailMarkdown := tailMarkdown }
    let st4 := setStreamingHtml st3 (renderBlockHtml render tailMarkdown)
    { st4 with prevContent := newContent }

/-- The processContentNow function: the main processing function,
called with the new content and completion flag on every prop change.
It returns the new state together with the events emitted during the
call. -/
def processContentNow (render : String → String) (nodes : String → Nat)
    (st : CompState) (newContent : String) (isComplete : Bool) :
    CompState × List Ev :=
  if st.prevContent = "" then
    -- Fresh content: handle as initial render
    let r :=
      if st.hasEmittedStart = false then
        ({ st with hasEmittedStart := true }, [Ev.start])
      else (st, ([] : List Ev))
    let st2 := handleNonPrefixReplace render nodes r.1 newContent false
    ({ st2 with prevContent := newContent }, r.2)
  else if isComplete then
    (finalizeAll render nodes st newContent, [Ev.complete])
  else if strStartsWith newContent st.prevContent then
    -- Fast path: simple append
    let suffix := strDrop newContent (strLength st.prevContent)
    ({ processAppendedSuffix render nodes st suffix with prevContent := newContent }, [])
  else
    let minLength := min (strLength st.prevContent) (strLength newContent)
    if minLength = 0 ∨ strStartsWith newContent (strTake st.prevContent minLength) = false then
      (handleNonPrefixReplace render nodes st newContent isComplete, [])
    else
      ({ processAppendedSuffix render nodes st "" with prevContent := newContent }, [])

/-- The body of the prop watcher: clear the start flag when the content
is empty or shorter than the previous snapshot, then process the
update. -/
def watchStep (render : String → String) (nodes : String → Nat)
    (st : CompState) (newContent : String) (isComplete : Bool) :
    CompState × List Ev :=
  let st1 :=
    if newContent = "" ∨ strLength newContent < strLength st.prevContent then
      { st with hasEmittedStart := false }
    else st
  processContentNow render nodes st1 newContent isComplete

/-- Run a sequence of prop updates through the watcher, collecting the
emitted events in order. -/
def runUpdates (render : String → String) (nodes : String → Nat)
    (st : CompState) (updates : List (String × Bool)) : CompState × List Ev :=
  updates.foldl
    (fun acc u =>
      let r := watchStep render nodes acc.1 u.1 u.2
      (r.1, acc.2 ++ r.2))
    (st, [])

/-- The while loop of flushToStatic at the DOM-node level: repeatedly
move the first child of the streaming container to the end of the
static container, incrementing staticBlockCount once per node. -/
def flushLoop {α : Type} : List α → List α → Nat → List α × List α × Nat
  | staticChildren, [], staticBlockCount => (staticChildren, [], staticBlockCount)
  | staticChildren, c :: rest, staticBlockCount =>
    flushLoop (staticChildren ++ [c]) rest (staticBlockCount + 1)

/-- The flushToStatic function at the DOM-node level, including the
guard that returns immediately when either container reference is
missing. -/
def flushToStaticDom {α : Type} (staticC streamingC : Option (List α))
    (staticBlockCount : Nat) : Option (List α) × Option (List α) × Nat :=
  match staticC, streamingC with
  | some staticChildren, some streamingChildren =>
    let r := flushLoop staticChildren streamingChildren staticBlockCount
    (some r.1, some r.2.1, r.2.2)
  | _, _ => (staticC, streamingC, staticBlockCount)

/-! ### Helper lemmas shared by the claim proofs -/

theorem setStreamingHtml_staticHtml (st : CompState) (h : String) :
    (setStreamingHtml st h).staticHtml = st.staticHtml := by
  unfold setStreamingHtml; split <;> rfl

theorem setStreamingHtml_tailMarkdown (st : CompState) (h : String) :
    (setStreamingHtml st h).tailMarkdown = st.tailMarkdown := by
  unfold setStreamingHtml; split <;> rfl

theorem setStreamingHtml_prevContent (st : CompState) (h : String) :
    (setStreamingHtml st h).prevContent = st.prevContent := by
  unfold setStreamingHtml; split <;> rfl

theorem setStreamingHtml_lastCompleteBlockCount (st : CompState) (h : String) :
    (setStreamingHtml st h).lastCompleteBlockCount = st.lastCompleteBlockCount := by
  unfold setStreamingHtml; split <;> rfl

theorem setStreamingHtml_hasEmittedStart (st : CompState) (h : String) :
    (setStreamingHtml st h).hasEmittedStart = st.hasEmittedStart := by
  unfold setStreamingHtml; split <;> rfl

theorem flushToStatic_tailMarkdown (nodes : String → Nat) (st : CompState) :
    (flushToStatic nodes st).tailMarkdown = st.tailMarkdown := rfl

theorem flushToStatic_prevContent (nodes : String → Nat) (st : CompState) :
    (flushToStatic nodes st).prevContent = st.prevContent := rfl

theorem flushToStatic_lastCompleteBlockCount (nodes : String → Nat) (st : CompState) :
    (flushToStatic nodes st).lastCompleteBlockCount = st.lastCompleteBlockCount := rfl

theorem flushLoop_eq {α : Type} (stream staticChildren : List α) (n : Nat) :
    flushLoop staticChildren stream n =
      (staticChildren ++ stream, [], n + stream.length) := by
  induction stream generalizing staticChildren n with
  | nil => simp [flushLoop]
  | cons c rest ih =>
    have h : n + 1 + rest.length = n + (rest.length + 1) := by omega
    rw [flushLoop, ih, List.append_assoc, List.singleton_append, List.length_cons, h]

theorem strLength_empty : strLength "" = 0 := rfl

/-- The events emitted by one processContentNow call, as a function of
the branch taken. -/
theorem processContentNow_snd (render : String → String) (nodes : String → Nat)
    (st : CompState) (c : String) (b : Bool) :
    (processContentNow render nodes st c b).2 =
      if st.prevContent = "" then
        (if st.hasEmittedStart = false then [Ev.start] else [])
      else if b = true then [Ev.complete] else [] := by
  unfold processContentNow
  by_cases hp : st.prevContent = ""
  · rw [if_pos hp, if_pos hp]
    by_cases hf : st.hasEmittedStart = false
    · rw [if_pos hf, if_pos hf]
    · rw [if_neg hf, if_neg hf]
  · rw [if_neg hp, if_neg hp]
    by_cases hb : b = true
    · rw [if_pos hb, if_pos hb]
    · rw [if_neg hb, if_neg hb]
      split
      · rfl
      · dsimp only
        split <;> rfl

/-! ### Claim theorems -/

/-- Claim C7: for every input string, splitIntoBlocks returns a
non-empty sequence of block strings, and for the empty string it
returns exactly the one-element sequence containing the empty string.
The result depends only on the input because splitIntoBlocks is a pure
function of its argument by construction. -/
theorem C7_split_total_nonempty (s : String) :
    splitIntoBlocks s ≠ [] ∧ splitIntoBlocks "" = [""] := by
  refine ⟨?_, rfl⟩
  unfold splitIntoBlocks
  split
  · simp
  · dsimp only
    split
    · next h => exact List.length_pos.mp h
    · simp

/-- Claim C8: flushing is idempotent and append-only.  Flushing an
empty in-flight region, or flushing when either container reference is
missing, changes nothing (in particular the committed children and the
committed-node count are unchanged); a non-empty flush appends the
in-flight nodes, in order, after the existing committed nodes and
empties the in-flight region, so re-flushing the result is a no-op. -/
theorem C8_flush_idempotent_append_only {α : Type}
    (staticChildren streamingChildren : List α) (c : Option (List α)) (n : Nat) :
    flushToStaticDom (some staticChildren) (some ([] : List α)) n =
      (some staticChildren, some [], n) ∧
    flushToStaticDom (α := α) none c n = (none, c, n) ∧
    flushToStaticDom (some staticChildren) (none : Option (List α)) n =
      (some staticChildren, none, n) ∧
    flushToStaticDom (some staticChildren) (some streamingChildren) n =
      (some (staticChildren ++ streamingChildren), some [], n + streamingChildren.length) ∧
    (flushToStaticDom
        (flushToStaticDom (some staticChildren) (some streamingChildren) n).1
        (flushToStaticDom (some staticChildren) (some streamingChildren) n).2.1
        (flushToStaticDom (some staticChildren) (some streamingChildren) n).2.2 =
      flushToStaticDom (some staticChildren) (some streamingChildren) n) := by
  refine ⟨?_, ?_, ?_, ?_, ?_⟩
  · simp [flushToStaticDom, flushLoop_eq]
  · rfl
  · rfl
  · simp [flushToStaticDom, flushLoop_eq]
  · simp [flushToStaticDom, flushLoop_eq]

/-- Claim C10: a block that is empty or whitespace-only renders to the
empty string (the result does not depend on the external render
function at all), and the accumulation loop that builds the HTML
handed to the committed region filters empty render results out, so
such a block contributes nothing to the accumulated fragment. -/
theorem C10_blank_blocks_render_empty (render : String → String) (s b : String)
    (hs : jsTrim s = "") (hb : jsTrim b = "") (xs ys : List String) :
    renderBlockHtml render s = "" ∧
    accumulateHtml render (xs ++ b :: ys) = accumulateHtml render (xs ++ ys) := by
  have hrs : renderBlockHtml render s = "" := by
    simp [renderBlockHtml, hs, strLength]
  have hrb : renderBlockHtml render b = "" := by
    simp [renderBlockHtml, hb, strLength]
  refine ⟨hrs, ?_⟩
  simp only [accumulateHtml, List.foldl_append, List.foldl_cons, hrb]
  simp

/-- Witness for C10 at a concrete blank block and whitespace block. -/
theorem C10_witness :
    renderBlockHtml (fun t => t) " " = "" ∧
    accumulateHtml (fun t => t) (["- a"] ++ "" :: ["- b"]) =
      accumulateHtml (fun t => t) (["- a"] ++ ["- b"]) :=
  C10_blank_blocks_render_empty (fun t => t) " " ""
    (by decide) (by decide) ["- a"] ["- b"]

/-- Claim C1 (code bug): the finalize path does not always leave
render(final text) in the committed region.  Failing input: the update
sequence first delivers the content joining two identical list items
(the second item's streaming render is skipped by the lastRenderKey
dedup guard right after the first was flushed, leaving the streaming
container empty while lastRenderKey holds the rendered item), then
finalizes with exactly that one item as the final text.  finalizeAll
clears the static container, and setStreamingHtml skips publishing the
full render because lastRenderKey already equals it, so the deferred
flush moves nothing: the committed region ends empty instead of equal
to render of the final text.  The render collision is
render-independent because both renders are of the same block text. -/
theorem C1_finalize_not_full_render :
    (runUpdates (fun s => s) (fun _ => 0) initState
        [("- a\n\n- a", false), ("- a", true)]).2 = [Ev.start, Ev.complete] ∧
    (runUpdates (fun s => s) (fun _ => 0) initState
        [("- a\n\n- a", false), ("- a", true)]).1.staticHtml = "" ∧
    (fun s : String => s) "- a" ≠ "" := by decide

/-- Claim C3 (code bug): an update whose isComplete flag is true but
which is the first content the controller receives takes the
fresh-start path, which calls handleNonPrefixReplace with isComplete
hardcoded to false: no complete event is emitted, no finalize happens
(the committed region stays empty and the text sits in the tail
buffer), contradicting the claimed emit-on-the-complete-update
behavior. -/
theorem C3_first_update_complete_ignored :
    (runUpdates (fun s => s) (fun _ => 0) initState [("x", true)]).2 = [Ev.start] ∧
    (runUpdates (fun s => s) (fun _ => 0) initState [("x", true)]).1.staticHtml = "" ∧
    (runUpdates (fun s => s) (fun _ => 0) initState [("x", true)]).1.tailMarkdown = "x" := by
  decide

/-- Counterexample to claim C2: after streaming two list items, the
shorter next content that is a nonempty strict prefix of the previous
snapshot is NOT handled as a full reset: the tail buffer still holds
the old open block, the committed-block count is still 1, and the
committed region still holds the HTML flushed from the old content. -/
theorem C2_counterexample :
    (runUpdates (fun s => s) (fun _ => 0) initState
        [("- a\n\n- b", false), ("- a", false)]).1.tailMarkdown = "- b" ∧
    (runUpdates (fun s => s) (fun _ => 0) initState
        [("- a\n\n- b", false), ("- a", false)]).1.lastCompleteBlockCount = 1 ∧
    (runUpdates (fun s => s) (fun _ => 0) initState
        [("- a\n\n- b", false), ("- a", false)]).1.staticHtml = "- a" ∧
    ¬ (runUpdates (fun s => s) (fun _ => 0) initState
        [("- a\n\n- b", false), ("- a", false)]).1.lastCompleteBlockCount = 0 := by
  decide

/-- Counterexample to claim C4: the very first update, with content
equal to the empty string, emits the start event. -/
theorem C4_counterexample :
    (runUpdates (fun s => s) (fun _ => 0) initState [("", false)]).2 = [Ev.start] := by
  decide

/-- Claim C4 (amended): a start event is emitted on exactly those
updates that arrive while the previous snapshot is empty and either
the start flag is unset or the incoming content is the empty string
(the watcher clears the flag whenever the content is empty or shorter
than the previous snapshot).  In particular the first update of a
session emits start even when its content is empty, and during a run
of updates whose previous snapshot stays non-empty no start is
emitted. -/
theorem C4_start_characterization (render : String → String) (nodes : String → Nat)
    (st : CompState) (c : String) (b : Bool) :
    Ev.start ∈ (watchStep render nodes st c b).2 ↔
      st.prevContent = "" ∧ (st.hasEmittedStart = false ∨ c = "") := by
  unfold watchStep
  by_cases hcond : (c = "" ∨ strLength c < strLength st.prevContent)
  · rw [if_pos hcond, processContentNow_snd]
    by_cases hp : st.prevContent = ""
    · simp [hp]
      rcases hcond with h | h
      · exact Or.inr h
      · rw [hp] at h
        rw [strLength_empty] at h
        exact absurd h (Nat.not_lt_zero _)
    · have hps : ({ st with hasEmittedStart := false } : CompState).prevContent =
          st.prevContent := rfl
      rw [hps, if_neg hp]
      by_cases hb : b = true
      · rw [if_pos hb]
        simp [hp]
      · rw [if_neg hb]
        simp [hp]
  · rw [if_neg hcond, processContentNow_snd]
    by_cases hp : st.prevContent = ""
    · rw [if_pos hp]
      push_neg at hcond
      by_cases hf : st.hasEmittedStart = false
      · rw [if_pos hf]
        simp [hp, hf]
      · rw [if_neg hf]
        simp [hp, hf, hcond.1]
    · rw [if_neg hp]
      by_cases hb : b = true
      · rw [if_pos hb]
        simp [hp]
      · rw [if_neg hb]
        simp [hp]

theorem processAppendedSuffix_count_mono (render : String → String) (nodes : String → Nat)
    (st : CompState) (suffix : String) :
    st.lastCompleteBlockCount ≤
      (processAppendedSuffix render nodes st suffix).lastCompleteBlockCount := by
  unfold processAppendedSuffix
  split
  · rw [setStreamingHtml_lastCompleteBlockCount]
  · dsimp only
    rw [setStreamingHtml_lastCompleteBlockCount]
    split_ifs <;> dsimp only <;> omega

/-- Claim C5: for an update that is classified as a streaming append
(the previous snapshot is non-empty, the new content extends it, and
the update does not finalize), the committed-block count
lastCompleteBlockCount never decreases.  Along a pure append sequence
it is therefore never reset; the count is set to 0 only by the
fresh-start / rewind reset path and by session-terminating
finalization. -/
theorem C5_committed_count_monotone (render : String → String) (nodes : String → Nat)
    (st : CompState) (next : String)
    (hprev : ¬ st.prevContent = "")
    (happ : strStartsWith next st.prevContent = true) :
    st.lastCompleteBlockCount ≤
      (processContentNow render nodes st next false).1.lastCompleteBlockCount := by
  unfold processContentNow
  rw [if_neg hprev]
  rw [if_neg (by simp : ¬ (false = true))]
  rw [if_pos happ]
  exact processAppendedSuffix_count_mono render nodes st _

/-- Witness for C5 at a concrete append step. -/
theorem C5_witness :
    ({ initState with prevContent := "- a", tailMarkdown := "- a" } : CompState).lastCompleteBlockCount ≤
      (processContentNow (fun s => s) (fun _ => 0)
        { initState with prevContent := "- a", tailMarkdown := "- a" }
        "- a\n\n- b" false).1.lastCompleteBlockCount :=
  C5_committed_count_monotone (fun s => s) (fun _ => 0)
    { initState with prevContent := "- a", tailMarkdown := "- a" }
    "- a\n\n- b" (by decide) (by decide)

theorem strStartsWith_false_of_lt (a b : String) (h : strLength a < strLength b) :
    strStartsWith a b = false := by
  cases hsw : strStartsWith a b
  · rfl
  · exfalso
    have hp : b.data <+: a.data := by
      unfold strStartsWith at hsw
      exact List.isPrefixOf_iff_prefix.mp hsw
    have hle := hp.length_le
    unfold strLength at h
    omega

theorem processAppendedSuffix_empty_preserves (render : String → String)
    (nodes : String → Nat) (st : CompState) :
    (processAppendedSuffix render nodes st "").tailMarkdown = st.tailMarkdown ∧
    (processAppendedSuffix render nodes st "").lastCompleteBlockCount =
      st.lastCompleteBlockCount ∧
    (processAppendedSuffix render nodes st "").staticHtml = st.staticHtml := by
  unfold processAppendedSuffix
  rw [if_pos rfl]
  exact ⟨setStreamingHtml_tailMarkdown _ _, setStreamingHtml_lastCompleteBlockCount _ _,
    setStreamingHtml_staticHtml _ _⟩

set_option maxRecDepth 8192 in
theorem handleNonPrefixReplace_fresh_eq (render : String → String) (nodes : String → Nat)
    (st : CompState) (next : String) :
    (handleNonPrefixReplace render nodes st next false).tailMarkdown =
      (handleNonPrefixReplace render nodes initState next false).tailMarkdown ∧
    (handleNonPrefixReplace render nodes st next false).lastCompleteBlockCount =
      (handleNonPrefixReplace render nodes initState next false).lastCompleteBlockCount ∧
    (handleNonPrefixReplace render nodes st next false).staticHtml =
      (handleNonPrefixReplace render nodes initState next false).staticHtml ∧
    (handleNonPrefixReplace render nodes st next false).prevContent = next := by
  unfold handleNonPrefixReplace
  rw [if_neg (by simp : ¬ (false = true)), if_neg (by simp : ¬ (false = true))]
  unfold setStreamingHtml flushToStatic initState
  dsimp only
  split_ifs <;>
    first
      | exact ⟨rfl, rfl, rfl, rfl⟩
      | (exfalso; simp_all)

/-- Claim C2 (amended): a next snapshot shorter than the previous one
is handled as a Rewind full reset (tail buffer, committed-block count
and committed region discarded and rebuilt from next alone) only when
next is empty or next diverges from the corresponding front of the
previous snapshot.  When next is a nonempty strict prefix of the
previous snapshot, the code instead takes the empty-suffix append
path: the tail buffer, the committed-block count and the committed
region are all left unchanged, the open block is merely re-rendered,
no event is emitted, and the snapshot becomes next. -/
theorem C2_shorter_update_dichotomy (render : String → String) (nodes : String → Nat)
    (st : CompState) (next : String)
    (hprev : ¬ st.prevContent = "")
    (hlen : strLength next < strLength st.prevContent) :
    ((min (strLength st.prevContent) (strLength next) = 0 ∨
        strStartsWith next
          (strTake st.prevContent (min (strLength st.prevContent) (strLength next))) = false) →
      processContentNow render nodes st next false =
        (handleNonPrefixReplace render nodes st next false, []) ∧
      (handleNonPrefixReplace render nodes st next false).tailMarkdown =
        (handleNonPrefixReplace render nodes initState next false).tailMarkdown ∧
      (handleNonPrefixReplace render nodes st next false).lastCompleteBlockCount =
        (handleNonPrefixReplace render nodes initState next false).lastCompleteBlockCount ∧
      (handleNonPrefixReplace render nodes st next false).staticHtml =
        (handleNonPrefixReplace render nodes initState next false).staticHtml ∧
      (handleNonPrefixReplace render nodes st next false).prevContent = next) ∧
    (¬ (min (strLength st.prevContent) (strLength next) = 0 ∨
        strStartsWith next
          (strTake st.prevContent (min (strLength st.prevContent) (strLength next))) = false) →
      (processContentNow render nodes st next false).1.tailMarkdown = st.tailMarkdown ∧
      (processContentNow render nodes st next false).1.lastCompleteBlockCount =
        st.lastCompleteBlockCount ∧
      (processContentNow render nodes st next false).1.staticHtml = st.staticHtml ∧
      (processContentNow render nodes st next false).1.prevContent = next ∧
      (processContentNow render nodes st next false).2 = []) := by
  have hsw : ¬ (strStartsWith next st.prevContent = true) := by
    rw [strStartsWith_false_of_lt next st.prevContent hlen]
    simp
  constructor
  · intro hC
    unfold processContentNow
    rw [if_neg hprev, if_neg (by simp : ¬ (false = true)), if_neg hsw]
    dsimp only
    rw [if_pos hC]
    exact ⟨rfl, handleNonPrefixReplace_fresh_eq render nodes st next⟩
  · intro hC
    unfold processContentNow
    rw [if_neg hprev, if_neg (by simp : ¬ (false = true)), if_neg hsw]
    dsimp only
    rw [if_neg hC]
    have hps := processAppendedSuffix_empty_preserves render nodes st
    exact ⟨hps.1, hps.2.1, hps.2.2, rfl, rfl⟩

/-- Witness for C2 at a concrete nonempty strict-prefix shrink. -/
theorem C2_witness :
    (processContentNow (fun s => s) (fun _ => 0)
        { initState with prevContent := "ab", tailMarkdown := "ab" } "a" false).1.tailMarkdown =
      ({ initState with prevContent := "ab", tailMarkdown := "ab" } : CompState).tailMarkdown ∧
    (processContentNow (fun s => s) (fun _ => 0)
        { initState with prevContent := "ab", tailMarkdown := "ab" } "a" false).1.lastCompleteBlockCount =
      ({ initState with prevContent := "ab", tailMarkdown := "ab" } : CompState).lastCompleteBlockCount ∧
    (processContentNow (fun s => s) (fun _ => 0)
        { initState with prevContent := "ab", tailMarkdown := "ab" } "a" false).1.staticHtml =
      ({ initState with prevContent := "ab", tailMarkdown := "ab" } : CompState).staticHtml ∧
    (processContentNow (fun s => s) (fun _ => 0)
        { initState with prevContent := "ab", tailMarkdown := "ab" } "a" false).1.prevContent = "a" ∧
    (processContentNow (fun s => s) (fun _ => 0)
        { initState with prevContent := "ab", tailMarkdown := "ab" } "a" false).2 = [] :=
  (C2_shorter_update_dichotomy (fun s => s) (fun _ => 0)
      { initState with prevContent := "ab", tailMarkdown := "ab" } "a"
      (by decide) (by decide)).2 (by decide)

theorem splitLoop_fence_step (fenceChar : String) (line : String)
    (rest blocks currentBlock : List String)
    (hl : strStartsWith (jsTrim line) fenceChar = false) :
    splitLoop (line :: rest) blocks currentBlock true fenceChar =
      splitLoop rest blocks (currentBlock ++ [line]) true fenceChar := by
  simp only [splitLoop]
  cases hm : fenceMatch (jsTrim line) with
  | none => simp [hm]
  | some d => simp [hm, hl]

theorem splitLoop_fence_close (fenceChar : String)
    (hfc : fenceChar = "```" ∨ fenceChar = "~~~") (line : String)
    (rest blocks currentBlock : List String)
    (hl : strStartsWith (jsTrim line) fenceChar = true) :
    splitLoop (line :: rest) blocks currentBlock true fenceChar =
      splitLoop rest (blocks ++ [nlJoin (currentBlock ++ [line])]) [] false "" := by
  simp only [splitLoop]
  cases hm : fenceMatch (jsTrim line) with
  | some d => simp [hm, hl]
  | none =>
    exfalso
    unfold fenceMatch at hm
    rcases hfc with h | h <;> subst h <;> split_ifs at hm

theorem splitLoop_fence_no_close (fenceChar : String) (lines : List String) :
    ∀ blocks currentBlock : List String, currentBlock ≠ [] →
    (∀ l ∈ lines, strStartsWith (jsTrim l) fenceChar = false) →
    splitLoop lines blocks currentBlock true fenceChar =
      blocks ++ [nlJoin (currentBlock ++ lines)] := by
  induction lines with
  | nil =>
    intro blocks currentBlock hcur _
    have hlen : currentBlock.length > 0 := List.length_pos.mpr hcur
    simp [splitLoop, if_pos hlen]
  | cons line rest ih =>
    intro blocks currentBlock hcur hall
    rw [splitLoop_fence_step fenceChar line rest blocks currentBlock
      (hall line (by simp))]
    rw [ih blocks (currentBlock ++ [line]) (by simp)
      (fun l hl => hall l (by simp [hl]))]
    simp [List.append_assoc]

theorem splitLoop_fence_close_at (fenceChar : String)
    (hfc : fenceChar = "```" ∨ fenceChar = "~~~") (pre : List String) :
    ∀ (closeLine : String) (post blocks currentBlock : List String),
    (∀ l ∈ pre, strStartsWith (jsTrim l) fenceChar = false) →
    strStartsWith (jsTrim closeLine) fenceChar = true →
    splitLoop (pre ++ closeLine :: post) blocks currentBlock true fenceChar =
      splitLoop post (blocks ++ [nlJoin (currentBlock ++ pre ++ [closeLine])]) [] false "" := by
  induction pre with
  | nil =>
    intro closeLine post blocks currentBlock _ hcl
    simp only [List.nil_append, List.append_nil]
    rw [splitLoop_fence_close fenceChar hfc closeLine post blocks currentBlock hcl]
  | cons p pre' ih =>
    intro closeLine post blocks currentBlock hpre hcl
    simp only [List.cons_append]
    rw [splitLoop_fence_step fenceChar p (pre' ++ closeLine :: post) blocks currentBlock
      (hpre p (by simp))]
    rw [ih closeLine post blocks (currentBlock ++ [p])
      (fun l hl => hpre l (by simp [hl])) hcl]
    simp [List.append_assoc]

/-- Claim C6: splitIntoBlocks never places a block boundary strictly
inside an opened-but-unclosed fenced region.  With the scanner inside
a fence (the accumulated block holds at least the opening line), every
line whose trimmed form does not begin with the fence delimiter —
including blank lines — is appended to the same accumulated block with
no boundary emitted; the block is closed exactly at the first line
whose trimmed form begins with the same delimiter, with that line
included; and when no closing line exists the whole remaining input is
still emitted as the final block. -/
theorem C6_fence_integrity (fenceChar : String)
    (hfc : fenceChar = "```" ∨ fenceChar = "~~~")
    (lines blocks currentBlock : List String) (hcur : currentBlock ≠ []) :
    ((∀ l ∈ lines, strStartsWith (jsTrim l) fenceChar = false) →
      splitLoop lines blocks currentBlock true fenceChar =
        blocks ++ [nlJoin (currentBlock ++ lines)]) ∧
    (∀ (pre : List String) (closeLine : String) (post : List String),
      lines = pre ++ closeLine :: post →
      (∀ l ∈ pre, strStartsWith (jsTrim l) fenceChar = false) →
      strStartsWith (jsTrim closeLine) fenceChar = true →
      splitLoop lines blocks currentBlock true fenceChar =
        splitLoop post (blocks ++ [nlJoin (currentBlock ++ pre ++ [closeLine])]) [] false "") := by
  constructor
  · intro hall
    exact splitLoop_fence_no_close fenceChar lines blocks currentBlock hcur hall
  · intro pre closeLine post hsplit hpre hcl
    subst hsplit
    exact splitLoop_fence_close_at fenceChar hfc pre closeLine post blocks currentBlock hpre hcl

/-- Witness for C6: a fence opened by a backtick line absorbs the
plain line and closes at the closing backtick line. -/
theorem C6_witness :
    splitLoop (["x"] ++ "```" :: []) [] ["```"] true "```" =
      splitLoop [] ([] ++ [nlJoin (["```"] ++ ["x"] ++ ["```"])]) [] false "" :=
  (C6_fence_integrity "```" (Or.inl rfl) (["x"] ++ "```" :: []) [] ["```"]
      (by decide)).2 ["x"] "```" [] rfl (by decide) (by decide)

theorem nlJoin_cons (x : String) (ys : List String) (h : ys ≠ []) :
    nlJoin (x :: ys) = x ++ "\n" ++ nlJoin ys := by
  cases ys with
  | nil => exact absurd rfl h
  | cons y ys => rfl

theorem nlJoin_append (xs ys : List String) (hx : xs ≠ []) (hy : ys ≠ []) :
    nlJoin (xs ++ ys) = nlJoin xs ++ "\n" ++ nlJoin ys := by
  induction xs with
  | nil => exact absurd rfl hx
  | cons x xs' ih =>
    by_cases h' : xs' = []
    · subst h'
      simp only [List.singleton_append]
      rw [nlJoin_cons x ys hy]
      rfl
    · rw [List.cons_append, nlJoin_cons x (xs' ++ ys) (by simp [h']),
        nlJoin_cons x xs' h', ih h']
      simp [String.append_assoc]

/-- Character-level version of the newline join, used to relate
splitLines back to the original string. -/
def joinChars : List (List Char) → List Char
  | [] => []
  | [l] => l
  | l :: ls => l ++ '\n' :: joinChars ls

theorem nlJoin_map_mk (lls : List (List Char)) :
    nlJoin (lls.map String.mk) = String.mk (joinChars lls) := by
  induction lls with
  | nil => rfl
  | cons l ls ih =>
    cases ls with
    | nil => rfl
    | cons l2 ls2 =>
      simp only [List.map_cons] at ih ⊢
      rw [nlJoin_cons _ _ (by simp), ih]
      show String.mk ((l ++ ['\n']) ++ joinChars (l2 :: ls2)) =
        String.mk (l ++ '\n' :: joinChars (l2 :: ls2))
      exact congrArg String.mk (by simp)

theorem splitLinesChars_ne_nil (cs : List Char) : splitLinesChars cs ≠ [] := by
  cases cs with
  | nil => simp [splitLinesChars]
  | cons c cs =>
    simp only [splitLinesChars]
    cases h : splitLinesChars cs with
    | nil => simp
    | cons l ls =>
      show (if c = '\n' then [] :: l :: ls else (c :: l) :: ls) ≠ []
      by_cases hc : c = '\n' <;> simp [hc]

theorem joinChars_splitLinesChars (cs : List Char) :
    joinChars (splitLinesChars cs) = cs := by
  induction cs with
  | nil => rfl
  | cons c cs ih =>
    cases h : splitLinesChars cs with
    | nil => exact absurd h (splitLinesChars_ne_nil cs)
    | cons l ls =>
      rw [h] at ih
      simp only [splitLinesChars, h]
      by_cases hc : c = '\n'
      · subst hc
        rw [if_pos rfl]
        show [] ++ '\n' :: joinChars (l :: ls) = '\n' :: cs
        rw [ih]
        rfl
      · rw [if_neg hc]
        cases ls with
        | nil =>
          show c :: l = c :: cs
          simp only [joinChars] at ih
          rw [ih]
        | cons l2 ls2 =>
          show (c :: l) ++ '\n' :: joinChars (l2 :: ls2) = c :: cs
          simp only [joinChars] at ih
          rw [List.cons_append, ih]

theorem splitLines_ne_nil (s : String) : splitLines s ≠ [] := by
  unfold splitLines
  have h := splitLinesChars_ne_nil s.data
  simp [h]

theorem nlJoin_splitLines (s : String) : nlJoin (splitLines s) = s := by
  unfold splitLines
  rw [nlJoin_map_mk, joinChars_splitLinesChars]

/-- The reassembly relation of claim C9: the listed blocks occur in
order and reassemble to the given string, consecutive blocks being
separated either by a single newline or by newline, blank-line
content, newline (the blank boundary line the splitter dropped), with
the final block optionally followed by one dropped trailing newline
plus blank remnant. -/
inductive Reasm : List String → String → Prop where
  | nil : Reasm [] ""
  | single (b : String) : Reasm [b] b
  | singleTrail (b w : String) (hw : jsTrim w = "") : Reasm [b] (b ++ "\n" ++ w)
  | consNL (b : String) (bs : List String) (s : String) (hbs : bs ≠ [])
      (h : Reasm bs s) : Reasm (b :: bs) (b ++ "\n" ++ s)
  | consBlank (b w : String) (bs : List String) (s : String) (hw : jsTrim w = "")
      (hbs : bs ≠ []) (h : Reasm bs s) : Reasm (b :: bs) (b ++ "\n" ++ w ++ "\n" ++ s)

theorem fenceMatch_empty : fenceMatch "" = none := rfl

theorem splitLoop_true_none_step (line : String) (rest blocks currentBlock : List String)
    (fenceChar : String) (hm : fenceMatch (jsTrim line) = none) :
    splitLoop (line :: rest) blocks currentBlock true fenceChar =
      splitLoop rest blocks (currentBlock ++ [line]) true fenceChar := by
  simp [splitLoop, hm]

theorem splitLoop_open_step (line : String) (rest blocks currentBlock : List String)
    (fenceChar d : String) (hm : fenceMatch (jsTrim line) = some d) :
    splitLoop (line :: rest) blocks currentBlock false fenceChar =
      splitLoop rest
        (if currentBlock.length > 0 then blocks ++ [nlJoin currentBlock] else blocks)
        [line] true d := by
  simp [splitLoop, hm]

theorem splitLoop_close_step (line : String) (rest blocks currentBlock : List String)
    (fenceChar d : String) (hm : fenceMatch (jsTrim line) = some d)
    (hsw : strStartsWith (jsTrim line) fenceChar = true) :
    splitLoop (line :: rest) blocks currentBlock true fenceChar =
      splitLoop rest (blocks ++ [nlJoin (currentBlock ++ [line])]) [] false "" := by
  simp [splitLoop, hm, hsw]

theorem splitLoop_push_step (line : String) (rest blocks currentBlock : List String)
    (fenceChar : String) (hm : fenceMatch (jsTrim line) = none)
    (hnb : ¬ (jsTrim line = "" ∧ currentBlock.length > 0)) :
    splitLoop (line :: rest) blocks currentBlock false fenceChar =
      splitLoop rest blocks (currentBlock ++ [line]) false fenceChar := by
  simp [splitLoop, hm, hnb]

theorem splitLoop_boundary_none_step (line : String)
    (rest blocks currentBlock : List String) (fenceChar : String)
    (hbl : jsTrim line = "") (hcur : currentBlock.length > 0)
    (hfind : rest.find? (fun l => jsTrim l != "") = none) :
    splitLoop (line :: rest) blocks currentBlock false fenceChar =
      splitLoop rest (blocks ++ [nlJoin currentBlock]) [] false fenceChar := by
  simp [splitLoop, hbl, hcur, hfind, fenceMatch_empty]

theorem splitLoop_boundary_some_step (line : String)
    (rest blocks currentBlock : List String) (fenceChar nl : String)
    (hbl : jsTrim line = "") (hcur : currentBlock.length > 0)
    (hfind : rest.find? (fun l => jsTrim l != "") = some nl)
    (hst : isBlockStarter nl = true) :
    splitLoop (line :: rest) blocks currentBlock false fenceChar =
      splitLoop rest (blocks ++ [nlJoin currentBlock]) [] false fenceChar := by
  simp [splitLoop, hbl, hcur, hfind, hst, fenceMatch_empty]

theorem splitLoop_fold_step (line : String)
    (rest blocks currentBlock : List String) (fenceChar nl : String)
    (hbl : jsTrim line = "") (hcur : currentBlock.length > 0)
    (hfind : rest.find? (fun l => jsTrim l != "") = some nl)
    (hst : isBlockStarter nl = false) :
    splitLoop (line :: rest) blocks currentBlock false fenceChar =
      splitLoop rest blocks (currentBlock ++ [line]) false fenceChar := by
  simp [splitLoop, hbl, hcur, hfind, hst, fenceMatch_empty]

theorem splitLoop_reasm (lines : List String) :
    ∀ (blocks currentBlock : List String) (inCodeFence : Bool) (fenceChar : String),
    ∃ bs : List String,
      splitLoop lines blocks currentBlock inCodeFence fenceChar = blocks ++ bs ∧
      Reasm bs (nlJoin (currentBlock ++ lines)) ∧
      ((currentBlock ≠ [] ∨ lines ≠ []) → bs ≠ []) := by
  induction lines with
  | nil =>
    intro blocks currentBlock f fc
    cases currentBlock with
    | nil =>
      refine ⟨[], by simp [splitLoop], ?_, ?_⟩
      · exact Reasm.nil
      · intro h
        rcases h with h | h <;> exact absurd rfl h
    | cons c cur' =>
      refine ⟨[nlJoin (c :: cur')], by simp [splitLoop], ?_, by simp⟩
      simpa using Reasm.single (nlJoin (c :: cur'))
  | cons line rest ih =>
    intro blocks currentBlock f fc
    cases f with
    | true =>
      cases hm : fenceMatch (jsTrim line) with
      | none =>
        obtain ⟨bs, heq, hr, hne⟩ := ih blocks (currentBlock ++ [line]) true fc
        refine ⟨bs, ?_, ?_, ?_⟩
        · rw [splitLoop_true_none_step line rest blocks currentBlock fc hm, heq]
        · simpa [List.append_assoc] using hr
        · intro _
          exact hne (Or.inl (by simp))
      | some d =>
        cases hsw : strStartsWith (jsTrim line) fc with
        | false =>
          obtain ⟨bs, heq, hr, hne⟩ := ih blocks (currentBlock ++ [line]) true fc
          refine ⟨bs, ?_, ?_, ?_⟩
          · rw [splitLoop_fence_step fc line rest blocks currentBlock hsw, heq]
          · simpa [List.append_assoc] using hr
          · intro _
            exact hne (Or.inl (by simp))
        | true =>
          cases rest with
          | nil =>
            refine ⟨[nlJoin (currentBlock ++ [line])], ?_, ?_, by simp⟩
            · rw [splitLoop_close_step line [] blocks currentBlock fc d hm hsw]
              simp [splitLoop]
            · exact Reasm.single _
          | cons r rs =>
            obtain ⟨bs, heq, hr, hne⟩ :=
              ih (blocks ++ [nlJoin (currentBlock ++ [line])]) [] false ""
            refine ⟨nlJoin (currentBlock ++ [line]) :: bs, ?_, ?_, by simp⟩
            · rw [splitLoop_close_step line (r :: rs) blocks currentBlock fc d hm hsw, heq]
              simp
            · have hb2 : bs ≠ [] := hne (Or.inr (by simp))
              have hstr : nlJoin (currentBlock ++ line :: r :: rs) =
                  nlJoin (currentBlock ++ [line]) ++ "\n" ++ nlJoin (r :: rs) := by
                rw [show currentBlock ++ line :: r :: rs =
                    (currentBlock ++ [line]) ++ (r :: rs) by simp]
                exact nlJoin_append _ _ (by simp) (by simp)
              rw [hstr]
              have hr' : Reasm bs (nlJoin (r :: rs)) := by simpa using hr
              exact Reasm.consNL _ _ _ hb2 hr'
    | false =>
      cases hm : fenceMatch (jsTrim line) with
      | some d =>
        cases currentBlock with
        | nil =>
          obtain ⟨bs, heq, hr, hne⟩ := ih blocks [line] true d
          refine ⟨bs, ?_, ?_, ?_⟩
          · rw [splitLoop_open_step line rest blocks [] fc d hm]
            simpa using heq
          · simpa using hr
          · intro _
            exact hne (Or.inl (by simp))
        | cons c cur' =>
          obtain ⟨bs, heq, hr, hne⟩ := ih (blocks ++ [nlJoin (c :: cur')]) [line] true d
          refine ⟨nlJoin (c :: cur') :: bs, ?_, ?_, by simp⟩
          · rw [splitLoop_open_step line rest blocks (c :: cur') fc d hm]
            rw [if_pos (by simp : (c :: cur').length > 0), heq]
            simp
          · have hb2 : bs ≠ [] := hne (Or.inl (by simp))
            have hstr : nlJoin ((c :: cur') ++ line :: rest) =
                nlJoin (c :: cur') ++ "\n" ++ nlJoin (line :: rest) := by
              exact nlJoin_append _ _ (by simp) (by simp)
            rw [hstr]
            have hr' : Reasm bs (nlJoin (line :: rest)) := by simpa using hr
            exact Reasm.consNL _ _ _ hb2 hr'
      | none =>
        by_cases hb : jsTrim line = "" ∧ currentBlock.length > 0
        · have hcur : currentBlock ≠ [] := by
            intro hnil
            rw [hnil] at hb
            simp at hb
          cases hfind : rest.find? (fun l => jsTrim l != "") with
          | none =>
            cases rest with
            | nil =>
              refine ⟨[nlJoin currentBlock], ?_, ?_, by simp⟩
              · rw [splitLoop_boundary_none_step line [] blocks currentBlock fc
                  hb.1 hb.2 hfind]
                simp [splitLoop]
              · have hstr : nlJoin (currentBlock ++ [line]) =
                    nlJoin currentBlock ++ "\n" ++ line := by
                  rw [nlJoin_append currentBlock [line] hcur (by simp)]
                  rfl
                rw [hstr]
                exact Reasm.singleTrail _ line hb.1
            | cons r rs =>
              obtain ⟨bs, heq, hr, hne⟩ := ih (blocks ++ [nlJoin currentBlock]) [] false fc
              refine ⟨nlJoin currentBlock :: bs, ?_, ?_, by simp⟩
              · rw [splitLoop_boundary_none_step line (r :: rs) blocks currentBlock fc
                  hb.1 hb.2 hfind, heq]
                simp
              · have hb2 : bs ≠ [] := hne (Or.inr (by simp))
                have hr' : Reasm bs (nlJoin (r :: rs)) := by simpa using hr
                have hstr : nlJoin (currentBlock ++ line :: r :: rs) =
                    nlJoin currentBlock ++ "\n" ++ line ++ "\n" ++ nlJoin (r :: rs) := by
                  rw [nlJoin_append currentBlock (line :: r :: rs) hcur (by simp),
                    nlJoin_cons line (r :: rs) (by simp)]
                  simp [String.append_assoc]
                rw [hstr]
                exact Reasm.consBlank _ line bs _ hb.1 hb2 hr'
          | some nl =>
            cases hst : isBlockStarter nl with
            | true =>
              cases rest with
              | nil =>
                simp at hfind
              | cons r rs =>
                obtain ⟨bs, heq, hr, hne⟩ := ih (blocks ++ [nlJoin currentBlock]) [] false fc
                refine ⟨nlJoin currentBlock :: bs, ?_, ?_, by simp⟩
                · rw [splitLoop_boundary_some_step line (r :: rs) blocks currentBlock fc nl
                    hb.1 hb.2 hfind hst, heq]
                  simp
                · have hb2 : bs ≠ [] := hne (Or.inr (by simp))
                  have hr' : Reasm bs (nlJoin (r :: rs)) := by simpa using hr
                  have hstr : nlJoin (currentBlock ++ line :: r :: rs) =
                      nlJoin currentBlock ++ "\n" ++ line ++ "\n" ++ nlJoin (r :: rs) := by
                    rw [nlJoin_append currentBlock (line :: r :: rs) hcur (by simp),
                      nlJoin_cons line (r :: rs) (by simp)]
                    simp [String.append_assoc]
                  rw [hstr]
                  exact Reasm.consBlank _ line bs _ hb.1 hb2 hr'
            | false =>
              obtain ⟨bs, heq, hr, hne⟩ := ih blocks (currentBlock ++ [line]) false fc
              refine ⟨bs, ?_, ?_, ?_⟩
              · rw [splitLoop_fold_step line rest blocks currentBlock fc nl
                  hb.1 hb.2 hfind hst, heq]
              · simpa [List.append_assoc] using hr
              · intro _
                exact hne (Or.inl (by simp))
        · obtain ⟨bs, heq, hr, hne⟩ := ih blocks (currentBlock ++ [line]) false fc
          refine ⟨bs, ?_, ?_, ?_⟩
          · rw [splitLoop_push_step line rest blocks currentBlock fc hm hb, heq]
          · simpa [List.append_assoc] using hr
          · intro _
            exact hne (Or.inl (by simp))

/-- Claim C9: the blocks returned by splitIntoBlocks are contiguous
substrings of the input, occurring in the input in the same order
without overlap: rejoining consecutive blocks with a separator that is
either a single newline or a dropped blank boundary line (newline,
blank content, newline), allowing one dropped trailing newline plus
blank remnant after the last block, reconstructs the input exactly. -/
theorem C9_blocks_reassemble_input (s : String) : Reasm (splitIntoBlocks s) s := by
  by_cases hs : s = ""
  · subst hs
    exact Reasm.single ""
  · unfold splitIntoBlocks
    rw [if_neg hs]
    dsimp only
    obtain ⟨bs, heq, hr, hne⟩ := splitLoop_reasm (splitLines s) [] [] false ""
    have hbs : bs ≠ [] := hne (Or.inr (splitLines_ne_nil s))
    rw [heq]
    simp only [List.nil_append]
    rw [if_pos (List.length_pos.mpr hbs)]
    have hr' : Reasm bs s := by
      rw [List.nil_append, nlJoin_splitLines] at hr
      exact hr
    exact hr'

end LibreAssistant
